import Mathlib

/-!
# Verification of the AIPL interpreter core (repository `sandkoan/brier`)

This file gives a shallow embedding, in Lean 4, of the line/command parser and
operator-resolution-and-execution engine of `src/interpreter.py` (the primary
implementation variant of the repository), and settles the frozen claims about
it.  Strings are modelled as `List Char`; the Python runtime values flowing
between operators are modelled by the tagged union `Brier.Value`.

Modelling conventions, stated once here:
* Python floats are kept symbolic: a parsed float stores its (stripped) literal
  text together with a flag recording whether it denotes zero (the only fact
  about a float the engine ever consults, via truthiness).  No claim requires
  float arithmetic.
* Python builtins `int(...)` and `float(...)` are modelled on ASCII input,
  including the sign, surrounding-whitespace and single-underscore-between-
  digits rules of CPython.
* `isinstance(x, typing.Any)` raises `TypeError` in CPython (`typing._AnyMeta.
  __instancecheck__`); the model reflects that.
* Interactive I/O (`input`), `str.format` beyond a single plain hole, and
  `int`-of-float are outside every claim; they are modelled as explicit
  `PyErr.unmodelled` errors, never silently given a value.
* `print` side effects are dropped; `op_print` returns its argument unchanged,
  as in the source.
-/

namespace Brier

/-- Python whitespace for `str.strip` / `str.split()`: space, tab, newline,
carriage return, vertical tab, form feed. -/
def isPySpace (c : Char) : Bool :=
  c == ' ' || c == '\t' || c == '\n' || c == '\r' || c == Char.ofNat 11 || c == Char.ofNat 12

/-- Python `str.strip()`: remove leading and trailing whitespace. -/
def pyStrip (s : List Char) : List Char :=
  ((s.dropWhile isPySpace).reverse.dropWhile isPySpace).reverse

/-- A regex `\w` character (ASCII model): letters, digits, underscore. -/
def isWordChar (c : Char) : Bool :=
  c.isAlphanum || c == '_'

/-- Decimal digit character for `n < 10`. -/
def digitChar (n : Nat) : Char :=
  if n = 0 then '0' else if n = 1 then '1' else if n = 2 then '2' else if n = 3 then '3'
  else if n = 4 then '4' else if n = 5 then '5' else if n = 6 then '6' else if n = 7 then '7'
  else if n = 8 then '8' else '9'

/-- Numeric value of a digit character. -/
def digitVal (c : Char) : Nat := c.toNat - 48

/-- Value of a big-endian digit string (underscores must be removed first). -/
def digitsCore (s : List Char) : Nat :=
  s.foldl (fun a c => a * 10 + digitVal c) 0

/-- Validity of the tail of a CPython digit group, scanning from just after a
digit: underscores may appear only singly and only between digits. -/
def digitsURest : List Char → Bool
  | [] => true
  | c :: rest =>
    if c = '_' then
      match rest with
      | [] => false
      | d :: rest2 => d.isDigit && digitsURest rest2
    else c.isDigit && digitsURest rest

/-- A valid CPython digit group: nonempty, digits with optional single
underscores between digits (as accepted by `int("...")`, Python >= 3.6). -/
def digitsUValid : List Char → Bool
  | [] => false
  | c :: rest => c.isDigit && digitsURest rest

/-- Parse a CPython digit group to its value. -/
def parseDigitsU (s : List Char) : Option Nat :=
  if digitsUValid s then some (digitsCore (s.filter (fun c => c ≠ '_'))) else none

/-- Big-endian decimal rendering of a natural number, with fuel (`fuel > n`
suffices). -/
def natToStrAux : Nat → Nat → List Char
  | 0, _ => []
  | fuel + 1, n =>
    if n < 10 then [digitChar n]
    else natToStrAux fuel (n / 10) ++ [digitChar (n % 10)]

/-- Big-endian decimal rendering of a natural number (Python `str(n)`). -/
def natToStr (n : Nat) : List Char := natToStrAux (n + 1) n

/-- Decimal rendering of an integer (Python `str(k)`). -/
def intToStr (k : Int) : List Char :=
  if k < 0 then '-' :: natToStr k.natAbs else natToStr k.toNat

/-- Python `int(s)` on ASCII input: strip whitespace, optional sign, then a
valid digit group. Returns `none` where CPython raises `ValueError`. -/
def pyIntParse (s : List Char) : Option Int :=
  let t := pyStrip s
  if t.head? = some '+' then (parseDigitsU (t.drop 1)).map (fun n => (n : Int))
  else if t.head? = some '-' then (parseDigitsU (t.drop 1)).map (fun n => -(n : Int))
  else if t = [] then Option.none
  else (parseDigitsU t).map (fun n => (n : Int))

/-- The runtime value type flowing between operators: Python `None`, `int`,
`float` (symbolic: zero-ness flag plus stripped literal text), `str`, `list`. -/
inductive Value where
  | none
  | int (n : Int)
  | float (isZero : Bool) (lit : List Char)
  | str (s : List Char)
  | list (xs : List Value)

/-- Python truthiness (`bool(v)`), as used by `if not result`. -/
def Value.truthy : Value → Bool
  | .none => false
  | .int n => n != 0
  | .float isZero _ => !isZero
  | .str s => !s.isEmpty
  | .list xs => !xs.isEmpty

/-- Lower-case an ASCII letter. -/
def lowerChar (c : Char) : Char :=
  if 'A' ≤ c ∧ c ≤ 'Z' then Char.ofNat (c.toNat + 32) else c

/-- Split a char list at the first occurrence of `e`/`E` (exponent marker). -/
def splitOnExp : List Char → List Char × Option (List Char)
  | [] => ([], Option.none)
  | c :: rest =>
    if c = 'e' ∨ c = 'E' then ([], some rest)
    else
      let p := splitOnExp rest
      (c :: p.1, p.2)

/-- Split a char list at the first occurrence of `.`. -/
def splitOnDot : List Char → List Char × Option (List Char)
  | [] => ([], Option.none)
  | c :: rest =>
    if c = '.' then ([], some rest)
    else
      let p := splitOnDot rest
      (c :: p.1, p.2)

/-- All characters of a digit group are zero (underscores ignored). -/
def allZeroDigits (s : List Char) : Bool :=
  s.all (fun c => c == '0' || c == '_')

/-- Validity and zero-ness of a CPython float mantissa: `digits`, `digits.`,
`.digits` or `digits.digits`. -/
def mantissaOk (m : List Char) : Option Bool :=
  let p := splitOnDot m
  match p.2 with
  | Option.none => if digitsUValid p.1 then some (allZeroDigits p.1) else Option.none
  | some frac =>
    if p.1 = [] then
      if digitsUValid frac then some (allZeroDigits frac) else Option.none
    else if frac = [] then
      if digitsUValid p.1 then some (allZeroDigits p.1) else Option.none
    else if digitsUValid p.1 ∧ digitsUValid frac then
      some (allZeroDigits p.1 && allZeroDigits frac)
    else Option.none

/-- Validity and zero-ness of a CPython finite float body (mantissa plus
optional exponent part). -/
def parseFloatBody (body : List Char) : Option Bool :=
  let p := splitOnExp body
  match p.2 with
  | Option.none => mantissaOk p.1
  | some e =>
    let e2 := if e.head? = some '+' ∨ e.head? = some '-' then e.drop 1 else e
    if digitsUValid e2 then mantissaOk p.1 else Option.none

/-- Python `float(s)` on ASCII input: strip, optional sign, then `inf`,
`infinity`, `nan` (case-insensitive) or a finite literal.  Returns the
symbolic `Value.float`; `none` where CPython raises `ValueError`. -/
def pyFloatParse (s : List Char) : Option Value :=
  let t := pyStrip s
  let body := if t.head? = some '+' ∨ t.head? = some '-' then t.drop 1 else t
  let lower := body.map lowerChar
  if lower = "inf".data ∨ lower = "infinity".data ∨ lower = "nan".data then
    some (.float false t)
  else
    match parseFloatBody body with
    | some isZero => some (.float isZero t)
    | Option.none => Option.none

/-- Python error values raised by the interpreter core and its operators. -/
inductive PyErr where
  | typeError
  | indexError
  | valueError (msg : List Char)
  | unmodelled (what : String)
deriving DecidableEq, Repr

/-- Python list indexing `l[k]` for an `int` index: absolute when `k >= 0`,
from the end when `k < 0`; `none` (IndexError) when out of range. -/
def pyListGet (l : List Value) (k : Int) : Option Value :=
  if 0 ≤ k then l[k.toNat]?
  else if 0 ≤ k + (l.length : Int) then l[(k + (l.length : Int)).toNat]? else Option.none

/-- Embeds `AIPLInterpreter.parse_number_or_str` (src/interpreter.py lines
56-72): a leading `$` resolves a result reference (ValueError/IndexError both
re-raised as `Invalid result reference`); otherwise try `int`, then `float`,
then a quote-wrapped string has its quotes stripped, and anything else raises
`Unquoted string`. -/
def parseNumberOrStr (results : List Value) (value : List Char) : Except PyErr Value :=
  if value.head? = some '$' then
    match pyIntParse (value.drop 1) with
    | Option.none => .error (.valueError ("Invalid result reference: ".data ++ value))
    | some k =>
      match pyListGet results k with
      | some v => .ok v
      | Option.none => .error (.valueError ("Invalid result reference: ".data ++ value))
  else
    match pyIntParse value with
    | some n => .ok (.int n)
    | Option.none =>
      match pyFloatParse value with
      | some v => .ok v
      | Option.none =>
        if value.head? = some '"' ∧ value.getLast? = some '"' then
          .ok (.str (value.drop 1).dropLast)
        else .error (.valueError ("Unquoted string: ".data ++ value))

/-! ## The argument regex of `parse_args`

`parse_args` (src/interpreter.py lines 43-54) tokenizes with
`re.findall(r"(\w+)=((?:\[[^\]]*\])|(?:\"[^\"]*\")|\S+)", arg_line)`:
non-overlapping left-to-right matches, each a `\w+` key, `=`, then the first
alternative that fits (bracket group without nesting, quote group without
escapes, or a maximal non-space run).  Bare tokens that are not part of a
`key=value` match are simply not matched, hence dropped. -/

/-- Match the value part of the regex at the current position: the ordered
alternation `\[[^\]]*\]` | `\"[^\"]*\"` | `\S+`.  Returns the matched text and
the remainder. -/
def matchNonSpace (s : List Char) : Option (List Char × List Char) :=
  let tok := s.takeWhile (fun c => !isPySpace c)
  if tok = [] then Option.none else some (tok, s.dropWhile (fun c => !isPySpace c))

/-- First-fit alternation for the regex value group (see `matchNonSpace`). -/
def matchValue (s : List Char) : Option (List Char × List Char) :=
  if s.head? = some '[' then
    let content := (s.drop 1).takeWhile (fun c => c ≠ ']')
    let after := (s.drop 1).dropWhile (fun c => c ≠ ']')
    if after.head? = some ']' then some ('[' :: content ++ [']'], after.drop 1)
    else matchNonSpace s
  else if s.head? = some '"' then
    let content := (s.drop 1).takeWhile (fun c => c ≠ '"')
    let after := (s.drop 1).dropWhile (fun c => c ≠ '"')
    if after.head? = some '"' then some ('"' :: content ++ ['"'], after.drop 1)
    else matchNonSpace s
  else matchNonSpace s

/-- Try the whole regex at the current position: maximal `\w+` run, `=`, then
`matchValue`.  (A shorter `\w+` run cannot help, since `=` is not `\w`.) -/
def tryMatchAt (s : List Char) : Option (List Char × List Char × List Char) :=
  let key := s.takeWhile isWordChar
  if key = [] then Option.none
  else
    let rest := s.dropWhile isWordChar
    if rest.head? = some '=' then
      match matchValue (rest.drop 1) with
      | some (v, rem) => some (key, v, rem)
      | Option.none => Option.none
    else Option.none

/-- `re.findall` scan with fuel (every match consumes at least one character,
so `s.length` fuel suffices). -/
def reFindArgsAux : Nat → List Char → List (List Char × List Char)
  | 0, _ => []
  | _ + 1, [] => []
  | fuel + 1, c :: rest =>
    match tryMatchAt (c :: rest) with
    | some (k, v, rem) => (k, v) :: reFindArgsAux fuel rem
    | Option.none => reFindArgsAux fuel rest

/-- All `(key, value)` pairs the regex finds in one argument line. -/
def reFindArgs (s : List Char) : List (List Char × List Char) :=
  reFindArgsAux s.length s

/-! ## Argument maps -/

/-- A key of the per-command argument dict.  Explicit arguments use string
keys (named keys, or stringified positional ordinals); the injection step of
`apply_operator` writes `args[i] = result` with `i` an `int`, which in Python
is a distinct key from the string `str(i)`. -/
inductive ArgKey where
  | s (k : List Char)
  | i (n : Nat)
deriving DecidableEq, Repr

/-- The argument dict in insertion order (Python 3.7+ dict semantics). -/
abbrev ArgMap := List (ArgKey × Value)

/-- Python dict assignment `m[k] = v`: overwrite in place keeping the original
insertion position, else append. -/
def mapSet (m : ArgMap) (k : ArgKey) (v : Value) : ArgMap :=
  if m.any (fun p => p.1 = k) then
    m.map (fun p => if p.1 = k then (k, v) else p)
  else m ++ [(k, v)]

/-- Does the dict hold the integer key `i` (checked by `i not in args`)? -/
def hasIntKey (m : ArgMap) (i : Nat) : Bool :=
  m.any (fun p => p.1 = ArgKey.i i)

/-- Embeds `AIPLInterpreter.parse_args` (src/interpreter.py lines 43-54):
regex-scan the line, then for each match a `[...]` value is comma-split with
each element stripped and literal-parsed, a `"..."` value has its quotes
stripped verbatim (no escape decoding), and anything else goes through
`parse_number_or_str`. -/
def splitComma : List Char → List (List Char)
  | [] => [[]]
  | c :: rest =>
    if c = ',' then [] :: splitComma rest
    else
      match splitComma rest with
      | [] => [[c]]
      | h :: t => (c :: h) :: t

/-- Parse one matched regex value into a `Value` (body of the `parse_args`
loop). -/
def parseArgValue (results : List Value) (v : List Char) : Except PyErr Value :=
  if v.head? = some '[' ∧ v.getLast? = some ']' then
    ((splitComma (v.drop 1).dropLast).mapM
      (fun x => parseNumberOrStr results (pyStrip x))).map Value.list
  else if v.head? = some '"' ∧ v.getLast? = some '"' then
    .ok (.str (v.drop 1).dropLast)
  else parseNumberOrStr results v

/-- The `for k, v in arg_parts` loop of `parse_args`: parse each value and
assign it into the dict (last write wins on duplicate keys). -/
def parseArgsLoop (results : List Value) :
    ArgMap → List (List Char × List Char) → Except PyErr ArgMap
  | m, [] => .ok m
  | m, (k, v) :: rest =>
    match parseArgValue results v with
    | .error e => .error e
    | .ok val => parseArgsLoop results (mapSet m (.s k) val) rest

/-- `AIPLInterpreter.parse_args` itself. -/
def parseArgs (results : List Value) (argLine : List Char) : Except PyErr ArgMap :=
  parseArgsLoop results [] (reFindArgs argLine)

/-! ## Command parsing -/

/-- Python `s.split(maxsplit=1)` with whitespace separator: skip leading
whitespace; `none` when the string is all whitespace (so `parts[0]` raises
IndexError); otherwise the first token and the remainder after the separator
run (`[]` when the remainder is all whitespace). -/
def pySplitWsMax1 (s : List Char) : Option (List Char × List Char) :=
  let s1 := s.dropWhile isPySpace
  match s1 with
  | [] => Option.none
  | _ =>
    let name := s1.takeWhile (fun c => !isPySpace c)
    let rest := (s1.dropWhile (fun c => !isPySpace c)).dropWhile isPySpace
    some (name, rest)

/-- Python `s.split()` (whitespace split, runs collapsed, no empty tokens),
with fuel: every emitted token consumes at least one character, so
`s.length + 1` fuel suffices. -/
def pySplitWsAux : Nat → List Char → List (List Char)
  | 0, _ => []
  | fuel + 1, s =>
    match s.dropWhile isPySpace with
    | [] => []
    | c :: rest =>
      ((c :: rest).takeWhile (fun x => !isPySpace x)) ::
        pySplitWsAux fuel ((c :: rest).dropWhile (fun x => !isPySpace x))

/-- Python `s.split()`. -/
def pySplitWs (s : List Char) : List (List Char) :=
  pySplitWsAux (s.length + 1) s

/-- Embeds `AIPLInterpreter.parse_command` (src/interpreter.py lines 117-131):
split off the operator name; if the argument text has no `=` anywhere, all
tokens are positional (keys are stringified ordinals), else it is handed to
`parse_args` (which drops bare positional tokens). -/
def parseCommand (results : List Value) (cmd : List Char) :
    Except PyErr (List Char × ArgMap) :=
  match pySplitWsMax1 cmd with
  | Option.none => .error .indexError
  | some (name, argLine) =>
    if '=' ∈ argLine then
      (parseArgs results argLine).map (fun args => (name, args))
    else
      ((pySplitWs argLine).mapM (parseNumberOrStr results)).map
        (fun vals => (name, vals.enum.map (fun p => (ArgKey.s (natToStr p.1), p.2))))

/-! ## Operator registry and implementations

The registry embeds the `@defop`-tagged functions of src/interpreter.py
(lines 172-229).  `get_arg_types` (lines 7-9) collects the *annotated*
parameters from `typing.get_type_hints`, excluding `return` and `self` — so
unannotated defaulted parameters (`sep=" "`) are not counted, while an
annotated `aipl: AIPLInterpreter` first parameter is. -/

/-- A declared parameter type as seen by `apply_operator`'s
`isinstance(result, base_type)` check: `str`, a `list[...]` origin,
`typing.Any`, or `AIPLInterpreter`. -/
inductive PType where
  | str
  | listT
  | any
  | interp
deriving DecidableEq, Repr

/-- `isinstance(result, base_type)`.  `isinstance(x, typing.Any)` raises
`TypeError` in CPython; a history value is never the interpreter object. -/
def pyIsinstance (v : Value) (t : PType) : Except PyErr Bool :=
  match t with
  | .str => .ok (match v with | .str _ => true | _ => false)
  | .listT => .ok (match v with | .list _ => true | _ => false)
  | .any => .error .typeError
  | .interp => .ok false

/-- One bound argument of a (possibly partial) operator call: the interpreter
object (`self`) or a value. -/
inductive CallArg where
  | self
  | v (val : Value)

/-- An operator descriptor: `@defop` metadata plus the annotated parameter
types and the implementation. -/
structure OpInfo where
  name : List Char
  aiplArity : Nat
  needsInterp : Bool
  argTypes : List PType
  impl : List CallArg → Except PyErr Value

/-- Python `a + b` on the modelled values. -/
def pyAdd : Value → Value → Except PyErr Value
  | .int a, .int b => .ok (.int (a + b))
  | .str a, .str b => .ok (.str (a ++ b))
  | .list a, .list b => .ok (.list (a ++ b))
  | .float _ _, _ => .error (.unmodelled "float arithmetic")
  | _, .float _ _ => .error (.unmodelled "float arithmetic")
  | _, _ => .error .typeError

/-- Python `int(v)` on a runtime value. -/
def pyIntOf : Value → Except PyErr Value
  | .int n => .ok (.int n)
  | .str s =>
    match pyIntParse s with
    | some n => .ok (.int n)
    | Option.none => .error (.valueError ("invalid literal for int: ".data ++ s))
  | .float _ _ => .error (.unmodelled "int of float")
  | _ => .error .typeError

/-- Python `s.split(...)` helper: split on a nonempty separator substring,
left to right, non-overlapping (fuel: each step consumes a character). -/
def splitOnSubAux : Nat → List Char → List Char → List (List Char)
  | 0, _, _ => []
  | fuel + 1, sep, s =>
    if sep.isPrefixOf s ∧ s ≠ [] then
      [] :: splitOnSubAux fuel sep (s.drop sep.length)
    else
      match s with
      | [] => [[]]
      | c :: rest =>
        match splitOnSubAux fuel sep rest with
        | [] => [[c]]
        | h :: t => (c :: h) :: t

/-- Python `s.split(sep)` for nonempty `sep`. -/
def pySplitOn (s sep : List Char) : List (List Char) :=
  splitOnSubAux (s.length + 1) sep s

/-- `op_print` (line 173): prints and returns its argument unchanged (the
side effect is dropped). -/
def opPrintImpl : List CallArg → Except PyErr Value
  | [.v x] => .ok x
  | _ => .error .typeError

/-- `op_input` (line 178): interactive input, outside the modelled core. -/
def opInputImpl : List CallArg → Except PyErr Value
  | _ => .error (.unmodelled "interactive input")

/-- `op_inspect_op` (line 182): prints the source of the named operator and
returns the name; a `list` op name is unhashable (`dict.get` raises). -/
def opInspectImpl : List CallArg → Except PyErr Value
  | [.self, .v (.list _)] => .error .typeError
  | [.self, .v v] => .ok v
  | _ => .error .typeError

/-- `sep.join(x)`: every element must be a `str`; a `str` argument is an
iterable of its one-character strings. -/
def pyJoinList (sep : List Char) (xs : List Value) : Except PyErr Value :=
  (xs.mapM (fun v => match v with
    | Value.str s => (Except.ok s : Except PyErr (List Char))
    | _ => Except.error PyErr.typeError)).map
    (fun ss => Value.str (List.intercalate sep ss))

/-- `op_join` (line 193): `sep.join(l)`, default separator a single space. -/
def opJoinImpl : List CallArg → Except PyErr Value
  | [.v (.list xs)] => pyJoinList [' '] xs
  | [.v (.str s)] => pyJoinList [' '] (s.map (fun c => .str [c]))
  | [.v (.list xs), .v (.str sep)] => pyJoinList sep xs
  | [.v (.str s), .v (.str sep)] => pyJoinList sep (s.map (fun c => .str [c]))
  | _ => .error .typeError

/-- `op_split` (line 197): `s.split(sep)`, default separator a single space;
an empty separator raises ValueError. -/
def opSplitImpl : List CallArg → Except PyErr Value
  | [.v (.str s)] => .ok (.list ((pySplitOn s [' ']).map .str))
  | [.v (.str s), .v (.str sep)] =>
    if sep = [] then .error (.valueError "empty separator".data)
    else .ok (.list ((pySplitOn s sep).map .str))
  | _ => .error .typeError

/-- `op_sum` (line 201): `sum(l)` with start value `0`; summing a nonempty
string raises TypeError at the first element. -/
def opSumImpl : List CallArg → Except PyErr Value
  | [.v (.list xs)] => xs.foldlM pyAdd (Value.int 0)
  | [.v (.str [])] => .ok (.int 0)
  | _ => .error .typeError

/-- `op_int` (line 205). -/
def opIntImpl : List CallArg → Except PyErr Value
  | [.v v] => pyIntOf v
  | _ => .error .typeError

/-- `op_float` (line 209). -/
def opFloatImpl : List CallArg → Except PyErr Value
  | [.v (.str s)] =>
    match pyFloatParse s with
    | some v => .ok v
    | Option.none => .error (.valueError ("could not convert string to float: ".data ++ s))
  | [.v (.int n)] => .ok (.float (n == 0) (intToStr n ++ ".0".data))
  | [.v (.float z lit)] => .ok (.float z lit)
  | _ => .error .typeError

/-- Find the first plain `\x7b\x7d` hole in a format string. -/
def findFmtHole : List Char → Option (List Char × List Char)
  | [] => Option.none
  | c :: rest =>
    if c = '\x7b' ∧ rest.head? = some '\x7d' then some ([], rest.drop 1)
    else (findFmtHole rest).map (fun p => (c :: p.1, p.2))

/-- Python `str(v)` for the value shapes the claims touch. -/
def pyStrOf : Value → Except PyErr (List Char)
  | .str s => .ok s
  | .int n => .ok (intToStr n)
  | .none => .ok "None".data
  | _ => .error (.unmodelled "str() of float or list")

/-- A character that is not a format brace. -/
def notBrace (c : Char) : Bool := c ≠ '\x7b' && c ≠ '\x7d'

/-- `fmt.format(v)`: modelled for a format string containing at most one
plain hole and no other braces; anything else is an explicit unmodelled
error. -/
def pyFormat (fmt : List Char) (v : Value) : Except PyErr Value :=
  match findFmtHole fmt with
  | some (pre, post) =>
    if pre.all notBrace ∧ post.all notBrace then
      (pyStrOf v).map (fun s => .str (pre ++ s ++ post))
    else .error (.unmodelled "general str.format")
  | Option.none =>
    if fmt.all notBrace then .ok (.str fmt) else .error (.unmodelled "general str.format")

/-- `op_format` (line 213): `fmt.format(v)`. -/
def opFormatImpl : List CallArg → Except PyErr Value
  | [.v (.str fmt), .v v] => pyFormat fmt v
  | _ => .error .typeError

/-- `op_add` (line 217). -/
def opAddImpl : List CallArg → Except PyErr Value
  | [.v a, .v b] => pyAdd a b
  | _ => .error .typeError

/-- `op_map_int` (line 221): `[int(x) for x in l]`; iterating a string yields
its one-character strings. -/
def opMapIntImpl : List CallArg → Except PyErr Value
  | [.v (.list xs)] => (xs.mapM pyIntOf).map Value.list
  | [.v (.str s)] => ((s.map (fun c => Value.str [c])).mapM pyIntOf).map Value.list
  | _ => .error .typeError

/-- `op_map` (line 225): the source body calls
`aipl.apply_operator(op, ..)` without the required `result` argument, so any
call over a nonempty iterable raises TypeError; an empty iterable yields `[]`
before any call is made. -/
def opMapImpl : List CallArg → Except PyErr Value
  | [.self, .v _, .v (.list [])] => .ok (.list [])
  | [.self, .v _, .v (.str [])] => .ok (.list [])
  | [.self, .v _, .v (.list _)] => .error .typeError
  | [.self, .v _, .v (.str _)] => .error .typeError
  | _ => .error .typeError

def printOp : OpInfo := ⟨"print".data, 1, false, [.str], opPrintImpl⟩
def inputOp : OpInfo := ⟨"input".data, 1, false, [.str], opInputImpl⟩
def inspectOp : OpInfo := ⟨"inspect".data, 1, true, [.interp, .str], opInspectImpl⟩
def joinOp : OpInfo := ⟨"join".data, 2, false, [.listT], opJoinImpl⟩
def splitOp : OpInfo := ⟨"split".data, 2, false, [.str], opSplitImpl⟩
def sumOp : OpInfo := ⟨"sum".data, 1, false, [.listT], opSumImpl⟩
def intOp : OpInfo := ⟨"int".data, 1, false, [.any], opIntImpl⟩
def floatOp : OpInfo := ⟨"float".data, 1, false, [.any], opFloatImpl⟩
def formatOp : OpInfo := ⟨"format".data, 2, false, [.str, .any], opFormatImpl⟩
def addOp : OpInfo := ⟨"add".data, 2, false, [.any, .any], opAddImpl⟩
def mapIntOp : OpInfo := ⟨"map_int".data, 1, false, [.listT], opMapIntImpl⟩
def mapOp : OpInfo := ⟨"map".data, 2, true, [.interp, .str, .listT], opMapImpl⟩

/-- The operator registry built by `register_operators` from the module
globals of src/interpreter.py. -/
def findOp (name : List Char) : Option OpInfo :=
  if name = "print".data then some printOp
  else if name = "input".data then some inputOp
  else if name = "inspect".data then some inspectOp
  else if name = "join".data then some joinOp
  else if name = "split".data then some splitOp
  else if name = "sum".data then some sumOp
  else if name = "int".data then some intOp
  else if name = "float".data then some floatOp
  else if name = "format".data then some formatOp
  else if name = "add".data then some addOp
  else if name = "map_int".data then some mapIntOp
  else if name = "map".data then some mapOp
  else Option.none

/-! ## Argument resolution and execution -/

/-- A resolved pipeline stage: an executed operator's value, or a deferred
`functools.partial` holding the operator name and its bound arguments. -/
inductive Stage where
  | value (v : Value)
  | deferred (opName : List Char) (bound : List CallArg)

/-- The injection scan of `apply_operator` (lines 142-147): find the first
parameter index whose declared type matches the result and whose integer
index is not an existing key (it never is, since explicit keys are strings).
An `Any` slot raises TypeError before a later slot can be reached. -/
def findSlot (result : Value) (args : ArgMap) : List PType → Nat → Except PyErr (Option Nat)
  | [], _ => .ok Option.none
  | t :: ts, i =>
    match pyIsinstance result t with
    | .error e => .error e
    | .ok b =>
      if b ∧ hasIntKey args i = false then .ok (some i)
      else findSlot result args ts (i + 1)

/-- The bound-argument list handed to the implementation or to
`functools.partial`: `self` first when `needs_interpreter`, then the dict
values in insertion order. -/
def callArgsOf (op : OpInfo) (args : ArgMap) : List CallArg :=
  (if op.needsInterp then [CallArg.self] else []) ++ args.map (fun p => CallArg.v p.2)

/-- The injection step of `apply_operator` (lines 141-147): `if not result and
len(args) < arity and not (op.aipl_needs_interpreter and len(args) == arity - 1)`
then write the result into the first matching slot. -/
def applyInject (op : OpInfo) (args : ArgMap) (result : Value) : Except PyErr ArgMap :=
  if result.truthy = false ∧ args.length < op.argTypes.length ∧
      ¬(op.needsInterp = true ∧ (args.length : Int) = (op.argTypes.length : Int) - 1) then
    match findSlot result args op.argTypes 0 with
    | .error e => .error e
    | .ok Option.none => .ok args
    | .ok (some i) => .ok (mapSet args (.i i) result)
  else .ok args

/-- The saturation step of `apply_operator` (lines 149-159): defer with a
partial when `arity > len(args)`, else call the implementation. -/
def applyFinish (op : OpInfo) (args2 : ArgMap) : Except PyErr (Stage × ArgMap) :=
  if op.argTypes.length > args2.length then
    .ok (.deferred op.name (callArgsOf op args2), args2)
  else
    (op.impl (callArgsOf op args2)).map (fun v => (.value v, args2))

/-- Embeds `AIPLInterpreter.apply_operator` (src/interpreter.py lines
134-161).  Note the source tests `if not result ...` — injection is attempted
only for a *falsy* result — and compares `len(args)` against
`len(get_arg_types(op))`, not against `aipl_arity`.  Returns the stage and
the (possibly mutated) argument dict, since the caller re-reads `len(args)`
after the call. -/
def applyOperator (opName : List Char) (args : ArgMap) (result : Value) :
    Except PyErr (Stage × ArgMap) :=
  match findOp opName with
  | Option.none => .error (.valueError ("Unknown operator: ".data ++ opName))
  | some op =>
    match applyInject op args result with
    | .error e => .error e
    | .ok args2 => applyFinish op args2

/-- Split a command line body on the literal token `|>`. -/
def splitPipe : List Char → List (List Char)
  | [] => [[]]
  | '|' :: '>' :: rest => [] :: splitPipe rest
  | c :: rest =>
    match splitPipe rest with
    | [] => [[c]]
    | h :: t => (c :: h) :: t

/-- The loop body of `process_commands` (src/interpreter.py lines 95-115).
For the last segment: a non-callable result is returned as is; a partial is
called with no argument when `aipl_arity == len(args)` (the dict as mutated
by `apply_operator`), else with the pre-pipeline `result`.  For the other
segments the stage is computed (so its errors and side effects happen) and
folded into `composed` — which the early return on the last segment makes
unreachable, so the composed closure is never invoked. -/
def processCmds (results : List Value) : List (List Char) → Value → Except PyErr Value
  | [], result => .ok result
  | [cmd], result => do
    let (opName, args) ← parseCommand results cmd
    let (stage, args2) ← applyOperator opName args result
    match stage with
    | .value v => .ok v
    | .deferred dname bound =>
      match findOp dname with
      | some op =>
        if op.aiplArity = args2.length then op.impl bound
        else op.impl (bound ++ [.v result])
      | Option.none => .error .typeError
  | cmd :: rest, result => do
    let (opName, args) ← parseCommand results cmd
    let _ ← applyOperator opName args result
    processCmds results rest result

/-- Embeds `AIPLInterpreter.process_commands` (lines 91-115): split the body
after `!` on `|>`, strip each segment, seed `result` with the history tail
(or `None`), and run the loop. -/
def processCommands (results : List Value) (line : List Char) : Except PyErr Value :=
  processCmds results ((splitPipe (line.drop 1)).map pyStrip)
    ((results.getLast?).getD Value.none)

/-- Embeds `AIPLInterpreter.process_line` (lines 81-89): strip; blank or `#`
lines pass through the history tail (`None` on empty history); `!` lines run
the pipeline; anything else is a literal, returned as the stripped text. -/
def processLine (results : List Value) (line : List Char) : Except PyErr Value :=
  let l := pyStrip line
  if l = [] ∨ l.head? = some '#' then .ok ((results.getLast?).getD Value.none)
  else if l.head? = some '!' then processCommands results l
  else .ok (.str l)

/-- Embeds `AIPLInterpreter.process_script` (lines 164-169) on pre-split
lines: process each line in order, appending its result to the history. -/
def processScript (st : List Value) : List (List Char) → Except PyErr (List Value)
  | [] => .ok st
  | l :: ls => do
    let r ← processLine st l
    processScript (st ++ [r]) ls

/-! ## Helper lemmas: decimal rendering round-trips through `int(...)` -/

theorem digitChar_props (n : Nat) (h : n < 10) :
    (digitChar n).isDigit = true ∧ digitVal (digitChar n) = n := by
  interval_cases n <;> exact ⟨by decide, by decide⟩

theorem isDigit_ne (c : Char) (h : c.isDigit = true) (d : Char) (hd : d.isDigit = false) :
    c ≠ d := by
  intro he
  rw [he, hd] at h
  cases h

theorem isPySpace_of_isDigit (c : Char) (h : c.isDigit = true) : isPySpace c = false := by
  have h1 := isDigit_ne c h ' ' (by decide)
  have h2 := isDigit_ne c h '\t' (by decide)
  have h3 := isDigit_ne c h '\n' (by decide)
  have h4 := isDigit_ne c h '\r' (by decide)
  have h5 := isDigit_ne c h (Char.ofNat 11) (by decide)
  have h6 := isDigit_ne c h (Char.ofNat 12) (by decide)
  simp [isPySpace, h1, h2, h3, h4, h5, h6]

theorem digitsURest_cons (c : Char) (rest : List Char) :
    digitsURest (c :: rest) =
      if c = '_' then
        (match rest with
          | [] => false
          | d :: rest2 => d.isDigit && digitsURest rest2)
      else c.isDigit && digitsURest rest := by
  rw [digitsURest.eq_def]

theorem digitsURest_all (s : List Char) (h : ∀ c ∈ s, c.isDigit = true) :
    digitsURest s = true := by
  induction s with
  | nil => rfl
  | cons c rest ih =>
    have hc := h c (by simp)
    have hne : ¬ (c = '_') := isDigit_ne c hc '_' (by decide)
    rw [digitsURest_cons, if_neg hne, hc, ih (fun x hx => h x (by simp [hx]))]
    rfl

theorem digitsUValid_all (c : Char) (rest : List Char)
    (h : ∀ x ∈ c :: rest, x.isDigit = true) : digitsUValid (c :: rest) = true := by
  rw [digitsUValid, h c (by simp), digitsURest_all rest (fun x hx => h x (by simp [hx]))]
  rfl

theorem digitsCore_append_one (xs : List Char) (d : Char) :
    digitsCore (xs ++ [d]) = digitsCore xs * 10 + digitVal d := by
  rw [digitsCore, List.foldl_append]
  rfl

theorem natToStrAux_spec (fuel : Nat) : ∀ n, n < fuel →
    (∀ c ∈ natToStrAux fuel n, c.isDigit = true) ∧ natToStrAux fuel n ≠ [] ∧
    digitsCore (natToStrAux fuel n) = n := by
  induction fuel with
  | zero => intro n h; omega
  | succ f ih =>
    intro n h
    rw [natToStrAux]
    by_cases h10 : n < 10
    · rw [if_pos h10]
      refine ⟨?_, by simp, ?_⟩
      · intro c hc
        simp only [List.mem_singleton] at hc
        rw [hc]
        exact (digitChar_props n h10).1
      · rw [show [digitChar n] = ([] : List Char) ++ [digitChar n] from rfl,
          digitsCore_append_one, (digitChar_props n h10).2]
        simp [digitsCore]
    · rw [if_neg h10]
      have hdiv : n / 10 < f := by
        have := Nat.div_lt_self (show 0 < n by omega) (show 1 < 10 by omega)
        omega
      obtain ⟨ha, hb, hc⟩ := ih (n / 10) hdiv
      have hm : n % 10 < 10 := Nat.mod_lt _ (by omega)
      refine ⟨?_, by simp, ?_⟩
      · intro c hcm
        rcases List.mem_append.mp hcm with h1 | h2
        · exact ha c h1
        · simp only [List.mem_singleton] at h2
          rw [h2]
          exact (digitChar_props _ hm).1
      · rw [digitsCore_append_one, hc, (digitChar_props _ hm).2]
        omega

theorem natToStr_spec (n : Nat) :
    (∀ c ∈ natToStr n, c.isDigit = true) ∧ natToStr n ≠ [] ∧
    digitsCore (natToStr n) = n :=
  natToStrAux_spec (n + 1) n (by omega)

theorem dropWhile_of_all_neg {α : Type} (p : α → Bool) (s : List α)
    (h : ∀ c ∈ s, p c = false) : s.dropWhile p = s := by
  cases s with
  | nil => rfl
  | cons c rest =>
    rw [List.dropWhile_cons_of_neg]
    simp [h c (by simp)]

theorem pyStrip_of_all_no_space (s : List Char)
    (h : ∀ c ∈ s, isPySpace c = false) : pyStrip s = s := by
  rw [pyStrip, dropWhile_of_all_neg _ _ h,
    dropWhile_of_all_neg _ _ (fun c hc => h c (List.mem_reverse.mp hc)), List.reverse_reverse]

theorem parseDigitsU_natToStr (n : Nat) : parseDigitsU (natToStr n) = some n := by
  obtain ⟨hdig, hne, hval⟩ := natToStr_spec n
  obtain ⟨c, rest, hcr⟩ := List.exists_cons_of_ne_nil hne
  rw [parseDigitsU]
  rw [hcr] at hdig hval ⊢
  rw [if_pos (digitsUValid_all c rest hdig)]
  have hfil : (c :: rest).filter (fun x => x ≠ '_') = c :: rest := by
    rw [List.filter_eq_self]
    intro a ha
    simp [isDigit_ne a (hdig a ha) '_' (by decide)]
  rw [hfil, hval]

theorem pyIntParse_natToStr (n : Nat) : pyIntParse (natToStr n) = some ((n : Nat) : Int) := by
  obtain ⟨hdig, hne, _⟩ := natToStr_spec n
  obtain ⟨c, rest, hcr⟩ := List.exists_cons_of_ne_nil hne
  have hstrip : pyStrip (natToStr n) = natToStr n :=
    pyStrip_of_all_no_space _ (fun x hx => isPySpace_of_isDigit x (hdig x hx))
  have hcd : c.isDigit = true := hdig c (by rw [hcr]; simp)
  have hh : (natToStr n).head? = some c := by rw [hcr]; rfl
  rw [pyIntParse]
  simp [hstrip, hh, isDigit_ne c hcd '+' (by decide), isDigit_ne c hcd '-' (by decide),
    hne, parseDigitsU_natToStr]

theorem pyIntParse_intToStr (k : Int) : pyIntParse (intToStr k) = some k := by
  rw [intToStr]
  by_cases hk : k < 0
  · rw [if_pos hk]
    obtain ⟨hdig, hne, _⟩ := natToStr_spec k.natAbs
    have hstrip : pyStrip ('-' :: natToStr k.natAbs) = '-' :: natToStr k.natAbs := by
      apply pyStrip_of_all_no_space
      intro x hx
      rcases List.mem_cons.mp hx with h1 | h2
      · rw [h1]; decide
      · exact isPySpace_of_isDigit x (hdig x h2)
    rw [pyIntParse]
    simp only [hstrip]
    simp only [List.head?_cons, List.drop_succ_cons, List.drop_zero, parseDigitsU_natToStr,
      Option.map_some]
    rw [if_pos trivial]
    show some (-((k.natAbs : Nat) : Int)) = some k
    congr 1
    omega
  · rw [if_neg hk, pyIntParse_natToStr]
    congr 1
    omega

/-! ## Helper lemmas: list indexing and stripping -/

theorem getElem?_eq_some_getD (l : List Value) (i : Nat) (h : i < l.length) :
    l[i]? = some (l.getD i Value.none) := by
  rw [List.getElem?_eq_getElem h, List.getD_eq_getElem l Value.none h]

theorem dropWhile_idem {α : Type} (p : α → Bool) (l : List α) :
    (l.dropWhile p).dropWhile p = l.dropWhile p := by
  induction l with
  | nil => rfl
  | cons c rest ih =>
    by_cases h : p c
    · rw [List.dropWhile_cons_of_pos h]
      exact ih
    · rw [List.dropWhile_cons_of_neg h, List.dropWhile_cons_of_neg h]

theorem dropWhile_suffix_decomp {α : Type} (p : α → Bool) (l : List α) :
    ∃ t, l = t ++ l.dropWhile p := by
  induction l with
  | nil => exact ⟨[], rfl⟩
  | cons c rest ih =>
    by_cases h : p c
    · obtain ⟨t, ht⟩ := ih
      refine ⟨c :: t, ?_⟩
      rw [List.dropWhile_cons_of_pos h, List.cons_append, ← ht]
    · exact ⟨[], by rw [List.dropWhile_cons_of_neg h]; rfl⟩

theorem dropWhile_eq_self_of_prefix {α : Type} (p : α → Bool) {a b : List α}
    (ha : a.dropWhile p = a) (hpre : ∃ t, a = b ++ t) : b.dropWhile p = b := by
  obtain ⟨t, ht⟩ := hpre
  cases b with
  | nil => rfl
  | cons c rest =>
    have hshape : a = c :: (rest ++ t) := by rw [ht]; rfl
    have hc : ¬ p c := by
      intro hpc
      rw [hshape, List.dropWhile_cons_of_pos hpc] at ha
      have hle : ((rest ++ t).dropWhile p).length ≤ (rest ++ t).length :=
        List.IsSuffix.length_le (List.dropWhile_suffix p)
      rw [ha] at hle
      simp at hle
    rw [List.dropWhile_cons_of_neg hc]

theorem pyStrip_idem (s : List Char) : pyStrip (pyStrip s) = pyStrip s := by
  rw [pyStrip, pyStrip]
  have hA : (s.dropWhile isPySpace).dropWhile isPySpace = s.dropWhile isPySpace :=
    dropWhile_idem _ s
  have hb : (((s.dropWhile isPySpace).reverse.dropWhile isPySpace).reverse).dropWhile isPySpace
      = ((s.dropWhile isPySpace).reverse.dropWhile isPySpace).reverse := by
    apply dropWhile_eq_self_of_prefix isPySpace hA
    obtain ⟨t, ht⟩ := dropWhile_suffix_decomp isPySpace (s.dropWhile isPySpace).reverse
    refine ⟨t.reverse, ?_⟩
    have := congrArg List.reverse ht
    simpa [List.reverse_append] using this
  rw [hb, List.reverse_reverse, dropWhile_idem]

theorem pyStrip_head_eq (s : List Char) : (pyStrip (pyStrip s)).head? = (pyStrip s).head? := by
  rw [pyStrip_idem]

/-! ## Helper lemmas: the execution loop -/

theorem processLine_blank (results : List Value) (line : List Char)
    (h : pyStrip line = [] ∨ (pyStrip line).head? = some '#') :
    processLine results line = .ok ((results.getLast?).getD Value.none) := by
  simp only [processLine]
  rw [if_pos h]

theorem processScript_ok (lines : List (List Char)) : ∀ (st st' : List Value),
    processScript st lines = .ok st' →
    (∃ tl, st' = st ++ tl ∧ tl.length = lines.length) ∧
    (∀ i line2, lines[i]? = some line2 →
      (pyStrip line2 = [] ∨ (pyStrip line2).head? = some '#') →
      st'[st.length + i]? = some (((st'.take (st.length + i)).getLast?).getD Value.none)) := by
  induction lines with
  | nil =>
    intro st st' h
    rw [processScript] at h
    cases h
    exact ⟨⟨[], by simp, rfl⟩, fun i l2 hi => by simp at hi⟩
  | cons l ls ih =>
    intro st st' h
    rw [processScript] at h
    cases hr : processLine st l with
    | error e =>
      rw [hr] at h
      simp only [Bind.bind, Except.bind] at h
      cases h
    | ok r =>
      rw [hr] at h
      simp only [Bind.bind, Except.bind] at h
      obtain ⟨⟨tl, htl, hlen⟩, hblank⟩ := ih (st ++ [r]) st' h
      have hshape : st' = st ++ (r :: tl) := by
        rw [htl, List.append_assoc]
        rfl
      constructor
      · exact ⟨r :: tl, hshape, by simp [hlen]⟩
      · intro i line2 hi hbl
        cases i with
        | zero =>
          have hl : l = line2 := by simpa using hi
          rw [← hl] at hbl
          have hr2 : r = ((st.getLast?).getD Value.none) := by
            have hb := processLine_blank st l hbl
            rw [hr] at hb
            injection hb
          have hel : st'[st.length + 0]? = some r := by
            rw [hshape, Nat.add_zero, List.getElem?_append_right (le_refl st.length)]
            simp
          have htake : st'.take (st.length + 0) = st := by
            rw [hshape, Nat.add_zero]
            exact List.take_left st (r :: tl)
          rw [hel, htake, hr2]
        | succ j =>
          have hi2 : ls[j]? = some line2 := by simpa using hi
          have hres := hblank j line2 hi2 hbl
          have harith : (st ++ [r]).length = st.length + 1 := by simp
          rw [harith] at hres
          have harith2 : st.length + 1 + j = st.length + (j + 1) := by omega
          rw [harith2] at hres
          exact hres

/-! ## Helper lemmas: the argument regex on a single quoted token -/

theorem takeWhile_append_stop {α : Type} (p : α → Bool) (pre : List α) (x : α) (post : List α)
    (hpre : ∀ c ∈ pre, p c = true) (hx : p x = false) :
    (pre ++ x :: post).takeWhile p = pre := by
  induction pre with
  | nil =>
    simp only [List.nil_append]
    rw [List.takeWhile_cons_of_neg (by simp [hx])]
  | cons c rest ih =>
    rw [List.cons_append, List.takeWhile_cons_of_pos (by simp [hpre c (by simp)]),
      ih (fun d hd => hpre d (by simp [hd]))]

theorem dropWhile_append_stop {α : Type} (p : α → Bool) (pre : List α) (x : α) (post : List α)
    (hpre : ∀ c ∈ pre, p c = true) (hx : p x = false) :
    (pre ++ x :: post).dropWhile p = x :: post := by
  induction pre with
  | nil =>
    simp only [List.nil_append]
    rw [List.dropWhile_cons_of_neg (by simp [hx])]
  | cons c rest ih =>
    rw [List.cons_append, List.dropWhile_cons_of_pos (by simp [hpre c (by simp)]),
      ih (fun d hd => hpre d (by simp [hd]))]

theorem matchValue_quoted (content : List Char) (hc : '"' ∉ content) :
    matchValue ('"' :: (content ++ ['"'])) = some ('"' :: (content ++ ['"']), []) := by
  have hpre : ∀ c ∈ content, (decide (c ≠ '"')) = true := by
    intro c hcm
    simp only [decide_eq_true_eq]
    intro he
    exact hc (he ▸ hcm)
  have hx : (decide ('"' ≠ '"')) = false := by decide
  have htw : (content ++ ['"']).takeWhile (fun c => decide (c ≠ '"')) = content := by
    have := takeWhile_append_stop (fun c => decide (c ≠ '"')) content '"' [] hpre hx
    simpa using this
  have hdw : (content ++ ['"']).dropWhile (fun c => decide (c ≠ '"')) = ['"'] := by
    have := dropWhile_append_stop (fun c => decide (c ≠ '"')) content '"' [] hpre hx
    simpa using this
  rw [matchValue]
  rw [if_neg (show ¬ (('"' :: (content ++ ['"'])) : List Char).head? = some '[' by
    rw [List.head?_cons]; decide)]
  rw [if_pos (show (('"' :: (content ++ ['"'])) : List Char).head? = some '"' from rfl)]
  rw [show (('"' :: (content ++ ['"'])) : List Char).drop 1 = content ++ ['"'] from rfl]
  rw [htw, hdw]
  rw [if_pos (show (['"'] : List Char).head? = some '"' from rfl)]
  rfl

theorem tryMatchAt_quoted (key content : List Char)
    (hk1 : key ≠ []) (hk2 : ∀ c ∈ key, isWordChar c = true) (hc : '"' ∉ content) :
    tryMatchAt (key ++ ('=' :: ('"' :: (content ++ ['"'])))) =
      some (key, '"' :: (content ++ ['"']), []) := by
  have htake : (key ++ ('=' :: ('"' :: (content ++ ['"'])))).takeWhile isWordChar = key :=
    takeWhile_append_stop isWordChar key '=' ('"' :: (content ++ ['"'])) hk2 (by decide)
  have hdrop : (key ++ ('=' :: ('"' :: (content ++ ['"'])))).dropWhile isWordChar
      = '=' :: ('"' :: (content ++ ['"'])) :=
    dropWhile_append_stop isWordChar key '=' ('"' :: (content ++ ['"'])) hk2 (by decide)
  rw [tryMatchAt]
  simp only [htake, hdrop]
  rw [if_neg hk1]
  rw [if_pos (show (('=' :: ('"' :: (content ++ ['"']))) : List Char).head? = some '='
    from rfl)]
  rw [show (('=' :: ('"' :: (content ++ ['"']))) : List Char).drop 1
      = '"' :: (content ++ ['"']) from rfl]
  rw [matchValue_quoted content hc]

theorem reFindArgsAux_nil (fuel : Nat) : reFindArgsAux fuel [] = [] := by
  cases fuel <;> rfl

theorem reFindArgs_single_quoted (key content : List Char)
    (hk1 : key ≠ []) (hk2 : ∀ c ∈ key, isWordChar c = true) (hc : '"' ∉ content) :
    reFindArgs (key ++ ('=' :: ('"' :: (content ++ ['"'])))) =
      [(key, '"' :: (content ++ ['"']))] := by
  obtain ⟨k0, krest, hk⟩ := List.exists_cons_of_ne_nil hk1
  have hshape : key ++ ('=' :: ('"' :: (content ++ ['"'])))
      = k0 :: (krest ++ ('=' :: ('"' :: (content ++ ['"'])))) := by rw [hk]; rfl
  rw [reFindArgs, hshape]
  rw [show (k0 :: (krest ++ ('=' :: ('"' :: (content ++ ['"']))))).length
      = (krest ++ ('=' :: ('"' :: (content ++ ['"'])))).length + 1 from rfl]
  rw [reFindArgsAux, ← hshape, tryMatchAt_quoted key content hk1 hk2 hc]
  rw [show (match some (key, '"' :: (content ++ ['"']), ([] : List Char)) with
      | some (k, v, rem) =>
        (k, v) :: reFindArgsAux (krest ++ ('=' :: ('"' :: (content ++ ['"'])))).length rem
      | Option.none =>
        reFindArgsAux (krest ++ ('=' :: ('"' :: (content ++ ['"'])))).length
          (krest ++ ('=' :: ('"' :: (content ++ ['"'])))))
      = (key, '"' :: (content ++ ['"'])) ::
        reFindArgsAux (krest ++ ('=' :: ('"' :: (content ++ ['"'])))).length [] from rfl]
  rw [reFindArgsAux_nil]

/-- `v[1:-1]` of a quote-delimited token is its content. -/
theorem drop_dropLast_quoted (content : List Char) :
    ((('"' :: (content ++ ['"'])) : List Char).drop 1).dropLast = content := by
  rw [show (('"' :: (content ++ ['"'])) : List Char).drop 1 = content ++ ['"'] from rfl]
  exact List.dropLast_concat

/-! ## Helper lemmas: the injection step on a `None` implicit value -/

theorem findSlot_none (args : ArgMap) (ts : List PType) : ∀ i,
    findSlot Value.none args ts i = .ok Option.none ∨
    findSlot Value.none args ts i = .error PyErr.typeError := by
  induction ts with
  | nil => intro i; left; rfl
  | cons t rest ih =>
    intro i
    cases t with
    | str =>
      rw [findSlot]
      simpa [pyIsinstance] using ih (i + 1)
    | listT =>
      rw [findSlot]
      simpa [pyIsinstance] using ih (i + 1)
    | any =>
      right
      rfl
    | interp =>
      rw [findSlot]
      simpa [pyIsinstance] using ih (i + 1)

theorem applyInject_none (op : OpInfo) (args : ArgMap) :
    applyInject op args Value.none = .ok args ∨
    applyInject op args Value.none = .error PyErr.typeError := by
  rw [applyInject]
  by_cases hcond : (Value.truthy Value.none = false ∧ args.length < op.argTypes.length ∧
      ¬(op.needsInterp = true ∧ (args.length : Int) = (op.argTypes.length : Int) - 1))
  · rw [if_pos hcond]
    rcases findSlot_none args op.argTypes 0 with hs | hs
    · rw [hs]; left; rfl
    · rw [hs]; right; rfl
  · rw [if_neg hcond]; left; rfl

theorem applyFinish_snd (op : OpInfo) (args2 : ArgMap) (st : Stage) (out : ArgMap)
    (h : applyFinish op args2 = .ok (st, out)) : out = args2 := by
  rw [applyFinish] at h
  by_cases hgt : op.argTypes.length > args2.length
  · rw [if_pos hgt] at h
    injection h with h1
    exact congrArg Prod.snd h1.symm
  · rw [if_neg hgt] at h
    cases himpl : op.impl (callArgsOf op args2) with
    | error e => rw [himpl] at h; cases h
    | ok v =>
      rw [himpl] at h
      injection h with h1
      exact congrArg Prod.snd h1.symm

/-! ## The claims -/

/-- C1: the claimed pipeline composition order fails on the code.  After a
literal line `1 2`, the line `!split |> map_int |> print` (three argument-less
stages) would, per the claim, produce `print(map_int(split("1 2"))) = [1, 2]`;
the source's `process_commands` instead applies only the final stage to the
pre-pipeline history tail, producing the string `1 2` — the composed closure
built from the earlier stages is discarded (`return composed(result)` is
unreachable). -/
theorem c1_pipeline_final_stage_gets_preline_value :
    processScript [] ["1 2".data, "!split |> map_int |> print".data] =
      .ok [.str "1 2".data, .str "1 2".data] ∧
    (do
      let a ← opSplitImpl [.v (.str "1 2".data)]
      let b ← opMapIntImpl [.v a]
      opPrintImpl [.v b]) = Except.ok (Value.list [.int 1, .int 2]) ∧
    Value.str "1 2".data ≠ Value.list [.int 1, .int 2] :=
  ⟨rfl, rfl, fun h => Value.noConfusion h⟩

/-- C2: the injection condition is inverted in the code.  For operator
`format` (arity 2, `needs_context` false, second parameter type-compatible
with a scalar), one explicit argument and the present (truthy) implicit value
`"5"`, the claim requires injection; the source tests `if not result ...`
(interpreter.py line 141), so nothing is injected and the operator is
returned as a deferred partial over the explicit argument alone. -/
theorem c2_truthy_implicit_never_injected :
    applyOperator "format".data [(ArgKey.s "fmt".data, Value.str "n=".data)]
        (Value.str "5".data) =
      .ok (.deferred "format".data [CallArg.v (Value.str "n=".data)],
        [(ArgKey.s "fmt".data, Value.str "n=".data)]) ∧
    (Value.str "5".data).truthy = true ∧
    ([(ArgKey.s "fmt".data, Value.str "n=".data)] : ArgMap).length < formatOp.argTypes.length ∧
    formatOp.needsInterp = false :=
  ⟨rfl, rfl, by decide, rfl⟩

/-- C3: arity saturation fails on the code for a present implicit value.  For
operator `add` (arity 2, `needs_context` false) with one explicit argument
and non-null implicit value `"x"` the claim requires immediate execution; the
code never injects a truthy implicit value (interpreter.py line 141), leaves
`len(args) < arity`, and returns a deferred partial — likewise with zero
explicit arguments. -/
theorem c3_saturated_operator_deferred :
    applyOperator "add".data [(ArgKey.s "0".data, Value.int 1)] (Value.str "x".data) =
      .ok (.deferred "add".data [CallArg.v (Value.int 1)],
        [(ArgKey.s "0".data, Value.int 1)]) ∧
    applyOperator "add".data [] (Value.str "x".data) =
      .ok (.deferred "add".data [], []) :=
  ⟨rfl, rfl⟩

/-- C4: result-reference resolution.  Parsing the token `$k` against a
history of results resolves `0 <= k < len` to exactly the recorded entry `k`,
fails with the `Invalid result reference` error for `k >= len`, and resolves
negative `k` (in range) to `history[len + k]`, exactly as
`parse_number_or_str` (interpreter.py lines 56-62) implements via Python list
indexing. -/
theorem c4_result_reference_resolution (results : List Value) (k : Int) :
    parseNumberOrStr results ('$' :: intToStr k) =
      if 0 ≤ k ∧ k < (results.length : Int) then
        .ok (results.getD k.toNat Value.none)
      else if k < 0 ∧ 0 ≤ k + (results.length : Int) then
        .ok (results.getD (k + (results.length : Int)).toNat Value.none)
      else
        .error (.valueError ("Invalid result reference: ".data ++ ('$' :: intToStr k))) := by
  rw [parseNumberOrStr]
  rw [if_pos (show (('$' :: intToStr k) : List Char).head? = some '$' from rfl)]
  rw [show (('$' :: intToStr k) : List Char).drop 1 = intToStr k from rfl]
  rw [pyIntParse_intToStr]
  show (match pyListGet results k with
    | some v => (.ok v : Except PyErr Value)
    | Option.none =>
      .error (.valueError ("Invalid result reference: ".data ++ ('$' :: intToStr k)))) = _
  by_cases h1 : 0 ≤ k ∧ k < (results.length : Int)
  · rw [if_pos h1]
    have hget : pyListGet results k = some (results.getD k.toNat Value.none) := by
      rw [pyListGet, if_pos h1.1]
      exact getElem?_eq_some_getD results k.toNat (by omega)
    rw [hget]
  · rw [if_neg h1]
    by_cases h2 : k < 0 ∧ 0 ≤ k + (results.length : Int)
    · rw [if_pos h2]
      have hget : pyListGet results k
          = some (results.getD (k + (results.length : Int)).toNat Value.none) := by
        rw [pyListGet, if_neg (by omega : ¬ (0 : Int) ≤ k), if_pos h2.2]
        exact getElem?_eq_some_getD results _ (by omega)
      rw [hget]
    · rw [if_neg h2]
      have hget : pyListGet results k = Option.none := by
        rw [pyListGet]
        by_cases h3 : (0 : Int) ≤ k
        · rw [if_pos h3]
          apply List.getElem?_eq_none
          omega
        · rw [if_neg h3, if_neg (by omega : ¬ (0 : Int) ≤ k + (results.length : Int))]
      rw [hget]

/-- C5: literal round-trip.  A line whose stripped text is nonempty and does
not begin with `!`, `?` or `#` is returned verbatim as its stripped text by
`process_line` (interpreter.py lines 81-89), and re-processing that result as
a fresh line yields the same text (stripping is idempotent). -/
theorem c5_literal_round_trip (results results2 : List Value) (line : List Char)
    (h1 : pyStrip line ≠ []) (h2 : (pyStrip line).head? ≠ some '!')
    (_h3 : (pyStrip line).head? ≠ some '?') (h4 : (pyStrip line).head? ≠ some '#') :
    processLine results line = .ok (.str (pyStrip line)) ∧
    processLine results2 (pyStrip line) = .ok (.str (pyStrip line)) := by
  constructor
  · simp only [processLine]
    rw [if_neg (not_or.mpr ⟨h1, h4⟩), if_neg h2]
  · simp only [processLine]
    rw [pyStrip_idem, if_neg (not_or.mpr ⟨h1, h4⟩), if_neg h2]

/-- C5 witness at a concrete literal line. -/
theorem c5_witness :
    processLine [] "  hello  ".data = .ok (.str "hello".data) ∧
    processLine [] "hello".data = .ok (.str "hello".data) := by
  have h := c5_literal_round_trip [] [] ("  hello  ".data)
    (by decide) (by decide) (by decide) (by decide)
  rw [show pyStrip "  hello  ".data = "hello".data from rfl] at h
  exact h

/-- C6: the history is append-only, one entry per line in source order, and a
blank or comment line's entry equals the history tail before it
(`process_line` lines 81-84, `process_script` lines 164-169). -/
theorem c6_history_append_only (st : List Value) (lines : List (List Char))
    (st2 : List Value) (h : processScript st lines = .ok st2) :
    (∃ tl, st2 = st ++ tl) ∧ st2.length = st.length + lines.length ∧
    (∀ i line2, lines[i]? = some line2 →
      (pyStrip line2 = [] ∨ (pyStrip line2).head? = some '#') →
      st2[st.length + i]? = some (((st2.take (st.length + i)).getLast?).getD Value.none)) := by
  obtain ⟨⟨tl, htl, hlen⟩, hb⟩ := processScript_ok lines st st2 h
  refine ⟨⟨tl, htl⟩, ?_, hb⟩
  rw [htl]
  simp [hlen]

/-- C6 witness: a two-line script (`!add 1 2`, then a comment) appends
exactly two entries, and the comment entry repeats the command's result. -/
theorem c6_witness :
    (∃ tl, [Value.int 3, Value.int 3] = ([] : List Value) ++ tl) ∧
    ([Value.int 3, Value.int 3] : List Value).length
      = ([] : List Value).length + (["!add 1 2".data, " # note".data]).length ∧
    ([Value.int 3, Value.int 3] : List Value)[1]? =
      some ((([Value.int 3, Value.int 3] : List Value).take 1).getLast?.getD Value.none) := by
  have h := c6_history_append_only [] ["!add 1 2".data, " # note".data]
    [Value.int 3, Value.int 3] rfl
  exact ⟨h.1, h.2.1, h.2.2 1 (" # note".data) rfl (Or.inr rfl)⟩

/-- C7: mixed named and positional tokens fail on the code.  For the segment
`add 5 b=3` the claim requires the argument map `{"0": 5, "b": 3}`; because
the line contains `=`, `parse_command` (lines 121-129) routes it to the
`parse_args` regex, which matches only `key=value` tokens, silently dropping
the bare `5` — a purely positional segment keeps every token under its
stringified ordinal. -/
theorem c7_mixed_args_drop_positional :
    parseCommand [] "add 5 b=3".data =
      .ok ("add".data, [(ArgKey.s "b".data, Value.int 3)]) ∧
    parseCommand [] "add 5 7".data =
      .ok ("add".data,
        [(ArgKey.s "0".data, Value.int 5), (ArgKey.s "1".data, Value.int 7)]) :=
  ⟨rfl, rfl⟩

/-- C8 counterexample: the token `msg="a\nb"` parses to the four characters
`a`, backslash, `n`, `b` — the escape sequence `\n` is not decoded to a
newline, refuting the claimed escape handling. -/
theorem c8_counterexample :
    parseArgs [] "msg=\"a\\nb\"".data =
      .ok [(ArgKey.s "msg".data, Value.str ['a', '\\', 'n', 'b'])] ∧
    Value.str ['a', '\\', 'n', 'b'] ≠ Value.str ['a', '\n', 'b'] :=
  ⟨rfl, fun h => by injection h with h2; exact absurd h2 (by decide)⟩

/-- C8 as amended: a double-quoted argument value is taken verbatim between
the delimiting quotes — no escape decoding of any kind — and its content can
contain any character except a quote (the regex `\"[^\"]*\"` ends the string
at the first quote, escaped or not). -/
theorem c8_quoted_verbatim (results : List Value) (key content : List Char)
    (hk1 : key ≠ []) (hk2 : ∀ c ∈ key, isWordChar c = true) (hc : '"' ∉ content) :
    parseArgs results (key ++ ('=' :: ('"' :: (content ++ ['"'])))) =
      .ok [(ArgKey.s key, Value.str content)] := by
  rw [parseArgs, reFindArgs_single_quoted key content hk1 hk2 hc]
  have hval : parseArgValue results ('"' :: (content ++ ['"'])) = .ok (.str content) := by
    rw [parseArgValue]
    have hlast : (('"' :: (content ++ ['"'])) : List Char).getLast? = some '"' := by
      rw [show ('"' :: (content ++ ['"']) : List Char) = ('"' :: content) ++ ['"'] from rfl]
      exact List.getLast?_append_cons ('"' :: content) '"' []
    rw [if_neg (by rintro ⟨hh, -⟩; rw [List.head?_cons] at hh; exact absurd hh (by decide))]
    rw [if_pos ⟨rfl, hlast⟩, drop_dropLast_quoted]
  rw [parseArgsLoop, hval]
  rfl

/-- C8 witness at a concrete quoted token containing a space. -/
theorem c8_witness :
    parseArgs [] ("msg".data ++ ('=' :: ('"' :: ("a b".data ++ ['"'])))) =
      .ok [(ArgKey.s "msg".data, Value.str "a b".data)] :=
  c8_quoted_verbatim [] "msg".data "a b".data (by decide) (by decide) (by decide)

/-- C9 counterexample: the bare token `abc` fails both numeric parses and is
not quote-wrapped; the code raises `Unquoted string` instead of producing the
raw string value the claim requires. -/
theorem c9_counterexample :
    parseNumberOrStr [] "abc".data =
      .error (.valueError ("Unquoted string: abc".data)) ∧
    parseNumberOrStr [] "abc".data ≠ .ok (.str "abc".data) :=
  ⟨rfl, fun h => by
    cases (show (Except.error (PyErr.valueError ("Unquoted string: abc".data))
        : Except PyErr Value) = .ok (.str "abc".data) from h)⟩

/-- C9 as amended: a non-reference token is tried as an integer, then as a
float; if both fail, a quote-wrapped token has its quotes stripped, and any
other token raises the `Unquoted string` ValueError rather than being left as
a raw string (`parse_number_or_str`, interpreter.py lines 63-72). -/
theorem c9_bare_token_strict (results : List Value) (t : List Char)
    (h : t.head? ≠ some '$') :
    parseNumberOrStr results t =
      match pyIntParse t with
      | some n => .ok (.int n)
      | Option.none =>
        match pyFloatParse t with
        | some v => .ok v
        | Option.none =>
          if t.head? = some '"' ∧ t.getLast? = some '"' then
            .ok (.str (t.drop 1).dropLast)
          else .error (.valueError ("Unquoted string: ".data ++ t)) := by
  rw [parseNumberOrStr, if_neg h]

/-- C9 witness at the concrete bare token `abc`. -/
theorem c9_witness :
    parseNumberOrStr [] "abc".data =
      .error (.valueError ("Unquoted string: ".data ++ "abc".data)) := by
  rw [c9_bare_token_strict [] "abc".data (by decide)]
  rfl

/-- C10: empty-history defaults.  With no processed lines: a blank or comment
line yields `None`; the pipeline seed of a command line is `None`
(`results[-1] if results else None`); and resolving any operator against a
`None` implicit value leaves the argument dict untouched — `isinstance(None,
...)` matches no declared slot, so nothing is ever injected (an `Any`-typed
slot raises TypeError before any injection could happen). -/
theorem c10_empty_history_defaults (line opName : List Char) (args : ArgMap)
    (st : Stage) (args2 : ArgMap) :
    ((pyStrip line = [] ∨ (pyStrip line).head? = some '#') →
      processLine [] line = .ok Value.none) ∧
    (processCommands [] line =
      processCmds [] ((splitPipe (line.drop 1)).map pyStrip) Value.none) ∧
    (applyOperator opName args Value.none = .ok (st, args2) → args2 = args) := by
  refine ⟨?_, rfl, ?_⟩
  · intro h
    exact processLine_blank [] line h
  · intro h
    rw [applyOperator] at h
    cases hf : findOp opName with
    | none => rw [hf] at h; cases h
    | some op =>
      rw [hf] at h
      have h2 : (match applyInject op args Value.none with
          | Except.error e => (Except.error e : Except PyErr (Stage × ArgMap))
          | Except.ok args3 => applyFinish op args3) = Except.ok (st, args2) := h
      rcases applyInject_none op args with hi | hi
      · rw [hi] at h2
        exact applyFinish_snd op args st args2 h2
      · rw [hi] at h2
        cases h2

/-- C10 witness: a comment line on an empty history yields `None`, and
resolving `print` with one explicit argument against a `None` implicit value
leaves the argument dict unchanged (here it saturates and executes). -/
theorem c10_witness :
    processLine [] " # hi".data = .ok Value.none ∧
    [(ArgKey.s "0".data, Value.str "x".data)] = [(ArgKey.s "0".data, Value.str "x".data)] :=
  ⟨(c10_empty_history_defaults (" # hi".data) "print".data
      [(ArgKey.s "0".data, Value.str "x".data)] (Stage.value (Value.str "x".data))
      [(ArgKey.s "0".data, Value.str "x".data)]).1 (Or.inr rfl),
    (c10_empty_history_defaults (" # hi".data) "print".data
      [(ArgKey.s "0".data, Value.str "x".data)] (Stage.value (Value.str "x".data))
      [(ArgKey.s "0".data, Value.str "x".data)]).2.2 rfl⟩

end Brier
